import Mathlib

/-!
# Green Travel Planner — verification of the Emission Scoring Engine

Shallow embedding of `src/script.js` (the computation and scoring engine plus
the recent-trip persistence helpers).  JavaScript numbers are modelled as exact
rationals (`ℚ`); `Math.round x` is `⌊x + 1/2⌋`, which matches the JavaScript
round-half-up behaviour.  The JavaScript `Array.prototype.sort` (stable since
ES2019) with the numeric comparator `a.emissionKg - b.emissionKg` is modelled
by a stable insertion sort on `emissionKg`.
-/

namespace GreenTravel

/-- The closed set of travel-mode keys, in the definition order of the
`EMISSION_FACTORS` object literal in `script.js`. -/
inductive Key where
  | walk | cycle | bus | metro | bike | car | carpool | evCar | flight
deriving DecidableEq, Repr

/-- `EMISSION_FACTORS` (kg CO2 per passenger-km), `script.js` lines 2–12.
`carpool` is `0.192 / 3` exactly as in the source. -/
def emissionFactor : Key → ℚ
  | .walk => 0
  | .cycle => 0
  | .bus => 105 / 1000
  | .metro => 41 / 1000
  | .bike => 103 / 1000
  | .car => 192 / 1000
  | .carpool => 192 / 1000 / 3
  | .evCar => 5 / 100
  | .flight => 255 / 1000

/-- `MODE_META[key].label`. -/
def modeLabel : Key → String
  | .walk => "Walking"
  | .cycle => "Cycling"
  | .bus => "Bus"
  | .metro => "Metro / Train"
  | .bike => "Motorbike"
  | .car => "Car (Solo Petrol)"
  | .carpool => "Car-pool"
  | .evCar => "Electric Car"
  | .flight => "Flight"

/-- `MODE_META[key].icon`. -/
def modeIcon : Key → String
  | .walk => "🚶"
  | .cycle => "🚴"
  | .bus => "🚌"
  | .metro => "🚆"
  | .bike => "🏍️"
  | .car => "🚗"
  | .carpool => "🚘"
  | .evCar => "🚙"
  | .flight => "✈️"

/-- `MODE_META[key].description`. -/
def modeDescription : Key → String
  | .walk => "Best for short distances. Zero emissions and great for health."
  | .cycle => "Perfect for short to medium distances with near-zero emissions."
  | .bus => "Good for city travel with low emissions per passenger."
  | .metro => "One of the cleanest options for medium and long distances."
  | .bike => "Better than a car for a single person, but not as green as public transport."
  | .car => "High emissions when travelling alone. Use only if necessary."
  | .carpool => "Sharing the ride cuts emissions and cost per person."
  | .evCar => "Much lower emissions than petrol, especially when grid is clean."
  | .flight => "Very high emissions. Try to avoid for short distances."

/-- `Object.entries(EMISSION_FACTORS)` iterates string keys in insertion
order, so this is the iteration order of the `for` loop in `computeModes`. -/
def allKeysInOrder : List Key :=
  [.walk, .cycle, .bus, .metro, .bike, .car, .carpool, .evCar, .flight]

/-- Position of a key in the definition table (used to state sort
stability). -/
def defIdx : Key → Nat
  | .walk => 0
  | .cycle => 1
  | .bus => 2
  | .metro => 3
  | .bike => 4
  | .car => 5
  | .carpool => 6
  | .evCar => 7
  | .flight => 8

/-- `roundTo(value, decimals)`: `Math.round(value * factor) / factor` with
`factor = 10^decimals` (`script.js` lines 63–66); `Math.round x = ⌊x + 1/2⌋`. -/
def roundTo (value : ℚ) (decimals : Nat) : ℚ :=
  (⌊value * (10 : ℚ) ^ decimals + 1 / 2⌋ : ℤ) / (10 : ℚ) ^ decimals

/-- One element of the array built by `computeModes` (the `greenScore` field
is assigned in the scoring pass; before that pass it is absent in JS, modelled
here as the placeholder `0`). -/
structure ModeEvaluation where
  key : Key
  label : String
  icon : String
  description : String
  emissionKg : ℚ
  greenScore : ℚ
deriving DecidableEq, Repr

/-- The distance/purpose applicability filter: the five `continue` guards of
the `for` loop in `computeModes` (`script.js` lines 76–81).  `true` means the
mode is kept. -/
def keepMode (distanceKm : ℚ) (purpose : String) (k : Key) : Bool :=
  if distanceKm < 1 ∧ (k = .bus ∨ k = .metro ∨ k = .flight) then false
  else if distanceKm < 2 ∧ k = .flight then false
  else if distanceKm < 3 ∧ k = .metro then false
  else if distanceKm < 5 ∧ k = .flight then false
  else if distanceKm < 10 ∧ purpose = "daily" ∧ k = .flight then false
  else true

/-- The object pushed for an eligible mode (`script.js` lines 84–91):
`emissionKg = roundTo(factor * distanceKm, 3)`; `greenScore` not yet set. -/
def baseEval (distanceKm : ℚ) (k : Key) : ModeEvaluation :=
  { key := k
    label := modeLabel k
    icon := modeIcon k
    description := modeDescription k
    emissionKg := roundTo (emissionFactor k * distanceKm) 3
    greenScore := 0 }

/-- `maxEmission` (`script.js` lines 95–98): the maximum `emissionKg` over the
modes with positive emission (`Math.max(...)` of a non-empty list is a left
fold of `max`), defaulting to `1` when no mode has positive emission. -/
def maxEmissionOf (modes : List ModeEvaluation) : ℚ :=
  match modes.filter (fun m => 0 < m.emissionKg) with
  | [] => 1
  | m :: ms => (ms.map (fun x => x.emissionKg)).foldl max m.emissionKg

/-- The scoring pass (`script.js` lines 101–109): zero-emission modes get 100;
otherwise `max(20, round(100 - (emissionKg / maxEmission) * 80))`. -/
def scoreEval (maxEmission : ℚ) (m : ModeEvaluation) : ModeEvaluation :=
  if m.emissionKg = 0 then { m with greenScore := 100 }
  else
    let ratio := m.emissionKg / maxEmission
    let score := 100 - ratio * 80
    { m with greenScore := max 20 (roundTo score 0) }

/-- Stable insertion of `a` into a list sorted ascending by `emissionKg`:
`a` goes before the first element whose emission is `≥ a.emissionKg`. -/
def insertByEmission (a : ModeEvaluation) : List ModeEvaluation → List ModeEvaluation
  | [] => [a]
  | b :: l => if a.emissionKg ≤ b.emissionKg then a :: b :: l else b :: insertByEmission a l

/-- Stable ascending sort by `emissionKg`, modelling
`modes.sort((a, b) => a.emissionKg - b.emissionKg)` (`script.js` line 112;
`Array.prototype.sort` is stable, and any stable sort on a total preorder is
unique, so insertion sort is an exact model). -/
def sortByEmission : List ModeEvaluation → List ModeEvaluation
  | [] => []
  | a :: l => insertByEmission a (sortByEmission l)

/-- The keys surviving the applicability filter, in definition order (the
`for` loop of `computeModes` visits `Object.entries(EMISSION_FACTORS)` in
insertion order and `continue`s on the excluded ones). -/
def eligibleKeys (distanceKm : ℚ) (purpose : String) : List Key :=
  allKeysInOrder.filter (keepMode distanceKm purpose)

/-- The `modes` array of `computeModes` right after the `for` loop (before the
scoring pass). -/
def modesList (distanceKm : ℚ) (purpose : String) : List ModeEvaluation :=
  (eligibleKeys distanceKm purpose).map (baseEval distanceKm)

/-- The `maxEmission` local of `computeModes` for a given query. -/
def maxEmission (distanceKm : ℚ) (purpose : String) : ℚ :=
  maxEmissionOf (modesList distanceKm purpose)

/-- The `modes` array after the scoring `forEach` pass. -/
def scoredList (distanceKm : ℚ) (purpose : String) : List ModeEvaluation :=
  (modesList distanceKm purpose).map (scoreEval (maxEmission distanceKm purpose))

/-- `computeModes(distanceKm, purpose)` (`script.js` lines 68–115):
filter → per-mode emission → green score → stable ascending sort. -/
def computeModes (distanceKm : ℚ) (purpose : String) : List ModeEvaluation :=
  sortByEmission (scoredList distanceKm purpose)

/-- `classifyTrip(distanceKm)` (`script.js` lines 124–129). -/
def classifyTrip (distanceKm : ℚ) : String :=
  if distanceKm ≤ 2 then "Very short (ideal for walking/cycling)"
  else if distanceKm ≤ 8 then "Short city trip"
  else if distanceKm ≤ 30 then "Medium city / town trip"
  else "Long distance trip"

/-- The purpose → label mapping of the submit handler (`script.js`
lines 381–388). -/
def purposeLabelOf (purpose : String) : String :=
  if purpose = "daily" then "Daily commute"
  else if purpose = "casual" then "Casual outing"
  else if purpose = "work" then "Work / Business"
  else "Long journey"

/-- A persisted recent-trip record (`script.js` lines 390–398).  `from`/`to`
are named `fromPlace`/`toPlace` because `from` is a Lean keyword. -/
structure RecentTripRecord where
  fromPlace : String
  toPlace : String
  distance : ℚ
  bestLabel : String
  bestEmission : ℚ
  tripType : String
  purposeLabel : String
deriving DecidableEq, Repr

/-- `loadRecentTrips` (`script.js` lines 134–144): missing or unparsable
storage yields `[]`; otherwise the stored list.  Storage is modelled as
`Option (List RecentTripRecord)` (`none` = key absent or corrupt). -/
def loadRecentTrips (storage : Option (List RecentTripRecord)) : List RecentTripRecord :=
  match storage with
  | none => []
  | some data => data

/-- `saveRecentTrip(trip)` (`script.js` lines 146–152): prepend
(`unshift`), truncate (`slice(0, 6)`), store, and return the trimmed list.
Returns (returned list, new storage content); in the source both are the same
`trimmed` array. -/
def saveRecentTrip (storage : Option (List RecentTripRecord)) (trip : RecentTripRecord) :
    List RecentTripRecord × Option (List RecentTripRecord) :=
  let current := loadRecentTrips storage
  let trimmed := (trip :: current).take 6
  (trimmed, some trimmed)

/-- The record built and saved by the submit handler on a successful query
(`script.js` lines 375–398): `none` when `computeModes` returns an empty list
(then nothing is saved), otherwise the `RecentTripRecord` with `bestLabel` and
`bestEmission` taken from the first (top-ranked) mode. -/
def mkTripRecord (fromPlace toPlace : String) (distanceKm : ℚ) (purpose : String) :
    Option RecentTripRecord :=
  match computeModes distanceKm purpose with
  | [] => none
  | best :: _ =>
    some { fromPlace := fromPlace
           toPlace := toPlace
           distance := distanceKm
           bestLabel := best.label
           bestEmission := best.emissionKg
           tripType := classifyTrip distanceKm
           purposeLabel := purposeLabelOf purpose }

/-! ### Facts about `roundTo` -/

theorem roundTo_zero (n : Nat) : roundTo 0 n = 0 := by
  simp [roundTo]
  norm_num

theorem roundTo_nonneg {x : ℚ} (n : Nat) (hx : 0 ≤ x) : 0 ≤ roundTo x n := by
  have hf : (0 : ℚ) < (10 : ℚ) ^ n := by positivity
  have h1 : (0 : ℤ) ≤ ⌊x * (10 : ℚ) ^ n + 1 / 2⌋ := by
    apply Int.floor_nonneg.mpr
    positivity
  have h2 : (0 : ℚ) ≤ ((⌊x * (10 : ℚ) ^ n + 1 / 2⌋ : ℤ) : ℚ) := by exact_mod_cast h1
  exact div_nonneg h2 hf.le

theorem roundTo_mono {x y : ℚ} (n : Nat) (h : x ≤ y) : roundTo x n ≤ roundTo y n := by
  have hf : (0 : ℚ) < (10 : ℚ) ^ n := by positivity
  have h1 : x * (10 : ℚ) ^ n + 1 / 2 ≤ y * (10 : ℚ) ^ n + 1 / 2 := by
    have := mul_le_mul_of_nonneg_right h hf.le
    linarith
  have h2 : (⌊x * (10 : ℚ) ^ n + 1 / 2⌋ : ℤ) ≤ ⌊y * (10 : ℚ) ^ n + 1 / 2⌋ :=
    Int.floor_mono h1
  have h3 : ((⌊x * (10 : ℚ) ^ n + 1 / 2⌋ : ℤ) : ℚ) ≤ ((⌊y * (10 : ℚ) ^ n + 1 / 2⌋ : ℤ) : ℚ) := by
    exact_mod_cast h2
  exact div_le_div_of_nonneg_right h3 hf.le

theorem roundTo_zero_decimals (x : ℚ) : roundTo x 0 = ((⌊x + 1 / 2⌋ : ℤ) : ℚ) := by
  simp [roundTo]

theorem roundTo_zero_decimals_le_100 {x : ℚ} (h : x < 100) : roundTo x 0 ≤ 100 := by
  rw [roundTo_zero_decimals]
  have h1 : ⌊x + 1 / 2⌋ < 101 := Int.floor_lt.mpr (by linarith)
  have h2 : ⌊x + 1 / 2⌋ ≤ 100 := by omega
  exact_mod_cast h2

theorem roundTo_twenty : roundTo 20 0 = 20 := by
  rw [roundTo_zero_decimals]
  norm_num

/-- Rounding to 3 decimals commutes with doubling up to `0.001`:
`|round3 (2x) - 2 * round3 x| ≤ 1/1000`. -/
theorem roundTo_three_double (x : ℚ) : |roundTo (2 * x) 3 - 2 * roundTo x 3| ≤ 1 / 1000 := by
  have h1 : ((⌊x * (10 : ℚ) ^ 3 + 1 / 2⌋ : ℤ) : ℚ) ≤ x * (10 : ℚ) ^ 3 + 1 / 2 := Int.floor_le _
  have h2 : x * (10 : ℚ) ^ 3 + 1 / 2 < (⌊x * (10 : ℚ) ^ 3 + 1 / 2⌋ : ℤ) + 1 :=
    Int.lt_floor_add_one _
  have hlo : 2 * ⌊x * (10 : ℚ) ^ 3 + 1 / 2⌋ - 1 ≤ ⌊2 * x * (10 : ℚ) ^ 3 + 1 / 2⌋ := by
    apply Int.le_floor.mpr
    push_cast
    linarith
  have hhi : ⌊2 * x * (10 : ℚ) ^ 3 + 1 / 2⌋ ≤ 2 * ⌊x * (10 : ℚ) ^ 3 + 1 / 2⌋ + 1 := by
    have h3 : ⌊2 * x * (10 : ℚ) ^ 3 + 1 / 2⌋ < 2 * ⌊x * (10 : ℚ) ^ 3 + 1 / 2⌋ + 2 := by
      apply Int.floor_lt.mpr
      push_cast
      linarith
    omega
  have key : |((⌊2 * x * (10 : ℚ) ^ 3 + 1 / 2⌋ : ℤ) : ℚ) -
      2 * ((⌊x * (10 : ℚ) ^ 3 + 1 / 2⌋ : ℤ) : ℚ)| ≤ 1 := by
    rw [abs_le]
    constructor
    · have h4 : ((2 * ⌊x * (10 : ℚ) ^ 3 + 1 / 2⌋ - 1 : ℤ) : ℚ) ≤
          ((⌊2 * x * (10 : ℚ) ^ 3 + 1 / 2⌋ : ℤ) : ℚ) := by exact_mod_cast hlo
      push_cast at h4
      linarith
    · have h5 : ((⌊2 * x * (10 : ℚ) ^ 3 + 1 / 2⌋ : ℤ) : ℚ) ≤
          ((2 * ⌊x * (10 : ℚ) ^ 3 + 1 / 2⌋ + 1 : ℤ) : ℚ) := by exact_mod_cast hhi
      push_cast at h5
      linarith
  have hrw : roundTo (2 * x) 3 - 2 * roundTo x 3 =
      (((⌊2 * x * (10 : ℚ) ^ 3 + 1 / 2⌋ : ℤ) : ℚ) -
        2 * ((⌊x * (10 : ℚ) ^ 3 + 1 / 2⌋ : ℤ) : ℚ)) / (10 : ℚ) ^ 3 := by
    unfold roundTo
    ring
  rw [hrw, abs_div]
  rw [abs_of_pos (by positivity : (0 : ℚ) < (10 : ℚ) ^ 3)]
  rw [div_le_iff₀ (by positivity : (0 : ℚ) < (10 : ℚ) ^ 3)]
  calc |((⌊2 * x * (10 : ℚ) ^ 3 + 1 / 2⌋ : ℤ) : ℚ) -
      2 * ((⌊x * (10 : ℚ) ^ 3 + 1 / 2⌋ : ℤ) : ℚ)| ≤ 1 := key
    _ = 1 / 1000 * 1000 := by norm_num
    _ ≤ 1 / 1000 * (10 : ℚ) ^ 3 := by norm_num

/-! ### Facts about the stable sort -/

theorem perm_insertByEmission (a : ModeEvaluation) (l : List ModeEvaluation) :
    List.Perm (insertByEmission a l) (a :: l) := by
  induction l with
  | nil => simp [insertByEmission]
  | cons b t ih =>
    by_cases h : a.emissionKg ≤ b.emissionKg
    · simp [insertByEmission, h]
    · rw [insertByEmission, if_neg h]
      exact (ih.cons b).trans (List.Perm.swap a b t)

theorem perm_sortByEmission (l : List ModeEvaluation) :
    List.Perm (sortByEmission l) l := by
  induction l with
  | nil => exact List.Perm.refl []
  | cons a t ih =>
    exact (perm_insertByEmission a (sortByEmission t)).trans (ih.cons a)

theorem mem_sortByEmission {a : ModeEvaluation} {l : List ModeEvaluation} :
    a ∈ sortByEmission l ↔ a ∈ l :=
  (perm_sortByEmission l).mem_iff

theorem pairwise_le_insertByEmission {a : ModeEvaluation} {l : List ModeEvaluation}
    (hl : l.Pairwise (fun x y => x.emissionKg ≤ y.emissionKg)) :
    (insertByEmission a l).Pairwise (fun x y => x.emissionKg ≤ y.emissionKg) := by
  induction l with
  | nil => simp [insertByEmission]
  | cons b t ih =>
    rcases List.pairwise_cons.mp hl with ⟨hb, ht⟩
    by_cases h : a.emissionKg ≤ b.emissionKg
    · rw [insertByEmission, if_pos h]
      refine List.pairwise_cons.mpr ⟨?_, hl⟩
      intro c hc
      rcases List.mem_cons.mp hc with rfl | hct
      · exact h
      · exact h.trans (hb c hct)
    · rw [insertByEmission, if_neg h]
      refine List.pairwise_cons.mpr ⟨?_, ih ht⟩
      intro c hc
      rcases List.mem_cons.mp ((perm_insertByEmission a t).mem_iff.mp hc) with rfl | hct
      · exact (not_le.mp h).le
      · exact hb c hct

theorem sorted_sortByEmission (l : List ModeEvaluation) :
    (sortByEmission l).Pairwise (fun x y => x.emissionKg ≤ y.emissionKg) := by
  induction l with
  | nil => exact List.Pairwise.nil
  | cons a t ih => exact pairwise_le_insertByEmission ih

theorem stable_insertByEmission {a : ModeEvaluation} {l : List ModeEvaluation}
    (hidx : ∀ b ∈ l, defIdx a.key < defIdx b.key)
    (hle : l.Pairwise (fun x y => x.emissionKg ≤ y.emissionKg))
    (hS : l.Pairwise (fun x y => x.emissionKg < y.emissionKg ∨
      (x.emissionKg = y.emissionKg ∧ defIdx x.key < defIdx y.key))) :
    (insertByEmission a l).Pairwise (fun x y => x.emissionKg < y.emissionKg ∨
      (x.emissionKg = y.emissionKg ∧ defIdx x.key < defIdx y.key)) := by
  induction l with
  | nil => simp [insertByEmission]
  | cons b t ih =>
    rcases List.pairwise_cons.mp hle with ⟨hble, htle⟩
    rcases List.pairwise_cons.mp hS with ⟨hbS, htS⟩
    by_cases h : a.emissionKg ≤ b.emissionKg
    · rw [insertByEmission, if_pos h]
      refine List.pairwise_cons.mpr ⟨?_, hS⟩
      intro c hc
      have hidxc : defIdx a.key < defIdx c.key := hidx c hc
      rcases List.mem_cons.mp hc with rfl | hct
      · rcases lt_or_eq_of_le h with hlt | heq
        · exact Or.inl hlt
        · exact Or.inr ⟨heq, hidxc⟩
      · have hac : a.emissionKg ≤ c.emissionKg := h.trans (hble c hct)
        rcases lt_or_eq_of_le hac with hlt | heq
        · exact Or.inl hlt
        · exact Or.inr ⟨heq, hidxc⟩
    · rw [insertByEmission, if_neg h]
      have hidxt : ∀ b ∈ t, defIdx a.key < defIdx b.key :=
        fun c hc => hidx c (List.mem_cons_of_mem b hc)
      refine List.pairwise_cons.mpr ⟨?_, ih hidxt htle htS⟩
      intro c hc
      rcases List.mem_cons.mp ((perm_insertByEmission a t).mem_iff.mp hc) with rfl | hct
      · exact Or.inl (not_le.mp h)
      · exact hbS c hct

theorem stable_sortByEmission {l : List ModeEvaluation}
    (hidx : l.Pairwise (fun x y => defIdx x.key < defIdx y.key)) :
    (sortByEmission l).Pairwise (fun x y => x.emissionKg < y.emissionKg ∨
      (x.emissionKg = y.emissionKg ∧ defIdx x.key < defIdx y.key)) := by
  induction l with
  | nil => exact List.Pairwise.nil
  | cons a t ih =>
    rcases List.pairwise_cons.mp hidx with ⟨ha, ht⟩
    have hidxs : ∀ b ∈ sortByEmission t, defIdx a.key < defIdx b.key :=
      fun b hb => ha b (mem_sortByEmission.mp hb)
    exact stable_insertByEmission hidxs (sorted_sortByEmission t) (ih ht)

theorem sortByEmission_cons_min {a : ModeEvaluation} {l : List ModeEvaluation}
    (h : ∀ b ∈ l, a.emissionKg ≤ b.emissionKg) :
    sortByEmission (a :: l) = a :: sortByEmission l := by
  show insertByEmission a (sortByEmission l) = a :: sortByEmission l
  cases hs : sortByEmission l with
  | nil => rfl
  | cons b t =>
    have hb : b ∈ sortByEmission l := by rw [hs]; exact List.mem_cons_self b t
    have hab : a.emissionKg ≤ b.emissionKg := h b (mem_sortByEmission.mp hb)
    rw [insertByEmission, if_pos hab]

/-! ### Facts about `Math.max` folds and `maxEmissionOf` -/

theorem le_foldl_max {b c : ℚ} (l : List ℚ) (h : c ≤ b) : c ≤ l.foldl max b := by
  induction l generalizing b with
  | nil => exact h
  | cons x xs ih => exact ih (h.trans (le_max_left b x))

theorem mem_le_foldl_max {x : ℚ} {l : List ℚ} (b : ℚ) (hx : x ∈ l) : x ≤ l.foldl max b := by
  induction l generalizing b with
  | nil => cases hx
  | cons y ys ih =>
    rcases List.mem_cons.mp hx with rfl | h
    · exact le_foldl_max ys (le_max_right b x)
    · exact ih _ h

theorem foldl_max_mem (b : ℚ) (l : List ℚ) : l.foldl max b = b ∨ l.foldl max b ∈ l := by
  induction l generalizing b with
  | nil => exact Or.inl rfl
  | cons x xs ih =>
    rcases ih (max b x) with h | h
    · rcases max_choice b x with hb | hx
      · exact Or.inl (by rw [List.foldl_cons, h, hb])
      · refine Or.inr ?_
        rw [List.foldl_cons, h, hx]
        exact List.mem_cons_self x xs
    · exact Or.inr (List.mem_cons_of_mem x h)

theorem le_maxEmissionOf {modes : List ModeEvaluation} {m : ModeEvaluation}
    (hm : m ∈ modes) (hpos : 0 < m.emissionKg) : m.emissionKg ≤ maxEmissionOf modes := by
  have hmem : m ∈ modes.filter (fun x => 0 < x.emissionKg) := by
    rw [List.mem_filter]
    exact ⟨hm, by simpa using hpos⟩
  unfold maxEmissionOf
  cases hfil : modes.filter (fun x => 0 < x.emissionKg) with
  | nil => rw [hfil] at hmem; cases hmem
  | cons m0 ms =>
    rw [hfil] at hmem
    rcases List.mem_cons.mp hmem with rfl | hms
    · exact le_foldl_max _ le_rfl
    · exact mem_le_foldl_max _ (List.mem_map_of_mem (fun x => x.emissionKg) hms)

theorem maxEmissionOf_pos {modes : List ModeEvaluation} {m : ModeEvaluation}
    (hm : m ∈ modes) (hpos : 0 < m.emissionKg) : 0 < maxEmissionOf modes :=
  hpos.trans_le (le_maxEmissionOf hm hpos)

theorem maxEmissionOf_attained {modes : List ModeEvaluation} {m : ModeEvaluation}
    (hm : m ∈ modes) (hpos : 0 < m.emissionKg) :
    ∃ m2 ∈ modes, 0 < m2.emissionKg ∧ maxEmissionOf modes = m2.emissionKg := by
  have hmem : m ∈ modes.filter (fun x => 0 < x.emissionKg) := by
    rw [List.mem_filter]
    exact ⟨hm, by simpa using hpos⟩
  unfold maxEmissionOf
  cases hfil : modes.filter (fun x => 0 < x.emissionKg) with
  | nil => rw [hfil] at hmem; cases hmem
  | cons m0 ms =>
    have hsub : ∀ x ∈ m0 :: ms, x ∈ modes ∧ 0 < x.emissionKg := by
      intro x hx
      rw [← hfil] at hx
      rcases List.mem_filter.mp hx with ⟨h1, h2⟩
      exact ⟨h1, by simpa using h2⟩
    rcases foldl_max_mem m0.emissionKg (ms.map (fun x => x.emissionKg)) with h | h
    · rcases hsub m0 (List.mem_cons_self m0 ms) with ⟨h1, h2⟩
      exact ⟨m0, h1, h2, h⟩
    · rcases List.mem_map.mp h with ⟨m2, hm2, hval⟩
      rcases hsub m2 (List.mem_cons_of_mem m0 hm2) with ⟨h1, h2⟩
      exact ⟨m2, h1, h2, hval.symm⟩

/-! ### Projections of the pipeline stages -/

theorem baseEval_key (d : ℚ) (k : Key) : (baseEval d k).key = k := rfl

theorem baseEval_emissionKg (d : ℚ) (k : Key) :
    (baseEval d k).emissionKg = roundTo (emissionFactor k * d) 3 := rfl

theorem scoreEval_key (M : ℚ) (m : ModeEvaluation) : (scoreEval M m).key = m.key := by
  unfold scoreEval
  split <;> rfl

theorem scoreEval_emissionKg (M : ℚ) (m : ModeEvaluation) :
    (scoreEval M m).emissionKg = m.emissionKg := by
  unfold scoreEval
  split <;> rfl

theorem scoreEval_label (M : ℚ) (m : ModeEvaluation) : (scoreEval M m).label = m.label := by
  unfold scoreEval
  split <;> rfl

theorem emissionFactor_nonneg (k : Key) : 0 ≤ emissionFactor k := by
  cases k <;> norm_num [emissionFactor]

theorem mem_computeModes {d : ℚ} {p : String} {e : ModeEvaluation} :
    e ∈ computeModes d p ↔
      ∃ k ∈ eligibleKeys d p, e = scoreEval (maxEmission d p) (baseEval d k) := by
  unfold computeModes scoredList modesList
  rw [mem_sortByEmission, List.map_map, List.mem_map]
  constructor
  · rintro ⟨k, hk, rfl⟩
    exact ⟨k, hk, rfl⟩
  · rintro ⟨k, hk, rfl⟩
    exact ⟨k, hk, rfl⟩

theorem emissionKg_of_mem {d : ℚ} {p : String} {e : ModeEvaluation}
    (h : e ∈ computeModes d p) : e.emissionKg = roundTo (emissionFactor e.key * d) 3 := by
  rcases mem_computeModes.mp h with ⟨k, hk, rfl⟩
  rw [scoreEval_emissionKg, scoreEval_key, baseEval_key, baseEval_emissionKg]

theorem emission_nonneg_of_mem {d : ℚ} {p : String} {e : ModeEvaluation}
    (hd : 0 ≤ d) (h : e ∈ computeModes d p) : 0 ≤ e.emissionKg := by
  rw [emissionKg_of_mem h]
  exact roundTo_nonneg 3 (mul_nonneg (emissionFactor_nonneg _) hd)

theorem emission_le_maxEmission_of_mem {d : ℚ} {p : String} {e : ModeEvaluation}
    (h : e ∈ computeModes d p) (hpos : 0 < e.emissionKg) :
    e.emissionKg ≤ maxEmission d p := by
  rcases mem_computeModes.mp h with ⟨k, hk, rfl⟩
  have hmem : baseEval d k ∈ modesList d p := List.mem_map_of_mem (baseEval d) hk
  rw [scoreEval_emissionKg] at hpos ⊢
  exact le_maxEmissionOf hmem hpos

theorem maxEmission_pos_of_mem {d : ℚ} {p : String} {e : ModeEvaluation}
    (h : e ∈ computeModes d p) (hpos : 0 < e.emissionKg) : 0 < maxEmission d p := by
  rcases mem_computeModes.mp h with ⟨k, hk, rfl⟩
  have hmem : baseEval d k ∈ modesList d p := List.mem_map_of_mem (baseEval d) hk
  rw [scoreEval_emissionKg] at hpos
  exact maxEmissionOf_pos hmem hpos

/-- Every element of the result is either a zero-emission mode scored 100, or
a positive-emission mode scored by the ratio formula. -/
theorem greenScore_of_mem {d : ℚ} {p : String} {e : ModeEvaluation}
    (h : e ∈ computeModes d p) :
    (e.emissionKg = 0 ∧ e.greenScore = 100) ∨
      (e.emissionKg ≠ 0 ∧
        e.greenScore = max 20 (roundTo (100 - e.emissionKg / maxEmission d p * 80) 0)) := by
  rcases mem_computeModes.mp h with ⟨k, hk, rfl⟩
  by_cases hz : (baseEval d k).emissionKg = 0
  · left
    constructor
    · rw [scoreEval_emissionKg]; exact hz
    · unfold scoreEval
      rw [if_pos hz]
  · right
    constructor
    · rw [scoreEval_emissionKg]; exact hz
    · conv_lhs => unfold scoreEval
      rw [if_neg hz]
      rw [scoreEval_emissionKg]

/-! ### The applicability filter, per key -/

theorem keepMode_walk (d : ℚ) (p : String) : keepMode d p .walk = true := by
  simp [keepMode]

theorem keepMode_cycle (d : ℚ) (p : String) : keepMode d p .cycle = true := by
  simp [keepMode]

theorem keepMode_bike (d : ℚ) (p : String) : keepMode d p .bike = true := by
  simp [keepMode]

theorem keepMode_car (d : ℚ) (p : String) : keepMode d p .car = true := by
  simp [keepMode]

theorem keepMode_carpool (d : ℚ) (p : String) : keepMode d p .carpool = true := by
  simp [keepMode]

theorem keepMode_evCar (d : ℚ) (p : String) : keepMode d p .evCar = true := by
  simp [keepMode]

theorem keepMode_bus_iff (d : ℚ) (p : String) : keepMode d p .bus = true ↔ 1 ≤ d := by
  simp [keepMode, not_lt]

theorem keepMode_metro_iff (d : ℚ) (p : String) : keepMode d p .metro = true ↔ 3 ≤ d := by
  simp only [keepMode]
  constructor
  · intro h
    by_contra hlt
    push_neg at hlt
    by_cases h1 : d < 1
    · simp [h1] at h
    · simp [h1, hlt] at h
  · intro h3
    have h1 : ¬ d < 1 := not_lt.mpr (by linarith)
    have h3n : ¬ d < 3 := not_lt.mpr h3
    simp [h1, h3n]

theorem keepMode_flight_iff (d : ℚ) (p : String) :
    keepMode d p .flight = true ↔ 5 ≤ d ∧ (10 ≤ d ∨ p ≠ "daily") := by
  simp only [keepMode]
  constructor
  · intro h
    by_cases h1 : d < 1
    · simp [h1] at h
    · by_cases h2 : d < 2
      · simp [h1, h2] at h
      · by_cases h5 : d < 5
        · simp [h1, h2, h5] at h
        · refine ⟨not_lt.mp h5, ?_⟩
          by_cases h10 : d < 10
          · by_cases hp : p = "daily"
            · simp [h1, h2, h5, h10, hp] at h
            · exact Or.inr hp
          · exact Or.inl (not_lt.mp h10)
  · rintro ⟨h5, h10p⟩
    have h1 : ¬ d < 1 := not_lt.mpr (by linarith)
    have h2 : ¬ d < 2 := not_lt.mpr (by linarith)
    have h5n : ¬ d < 5 := not_lt.mpr h5
    rcases h10p with h10 | hp
    · have h10n : ¬ d < 10 := not_lt.mpr h10
      simp [h1, h2, h5n, h10n]
    · simp [h1, h2, h5n, hp]

/-! ### The walking mode heads the result -/

theorem eligibleKeys_cons (d : ℚ) (p : String) :
    eligibleKeys d p =
      Key.walk :: ([Key.cycle, .bus, .metro, .bike, .car, .carpool, .evCar, .flight].filter
        (keepMode d p)) := by
  unfold eligibleKeys allKeysInOrder
  rw [List.filter_cons_of_pos (keepMode_walk d p)]

theorem scoreEval_baseEval_walk (d M : ℚ) :
    scoreEval M (baseEval d .walk) =
      ModeEvaluation.mk .walk "Walking" "🚶"
        "Best for short distances. Zero emissions and great for health." 0 100 := by
  have h0 : emissionFactor Key.walk * d = 0 := by
    simp [emissionFactor]
  have hem : (baseEval d .walk).emissionKg = 0 := by
    rw [baseEval_emissionKg, h0, roundTo_zero]
  unfold scoreEval
  rw [if_pos hem]
  unfold baseEval
  simp only [modeLabel, modeIcon, modeDescription, h0, roundTo_zero]

theorem scoredList_cons (d : ℚ) (p : String) :
    scoredList d p =
      ModeEvaluation.mk .walk "Walking" "🚶"
          "Best for short distances. Zero emissions and great for health." 0 100 ::
        (([Key.cycle, .bus, .metro, .bike, .car, .carpool, .evCar, .flight].filter
            (keepMode d p)).map (baseEval d)).map (scoreEval (maxEmission d p)) := by
  unfold scoredList modesList
  rw [eligibleKeys_cons, List.map_cons, List.map_cons, scoreEval_baseEval_walk]

theorem computeModes_cons {d : ℚ} (p : String) (hd : 0 ≤ d) :
    computeModes d p =
      ModeEvaluation.mk .walk "Walking" "🚶"
          "Best for short distances. Zero emissions and great for health." 0 100 ::
        sortByEmission ((([Key.cycle, .bus, .metro, .bike, .car, .carpool, .evCar,
            .flight].filter (keepMode d p)).map (baseEval d)).map
            (scoreEval (maxEmission d p))) := by
  unfold computeModes
  rw [scoredList_cons]
  apply sortByEmission_cons_min
  intro b hb
  rcases List.mem_map.mp hb with ⟨m, hm, rfl⟩
  rcases List.mem_map.mp hm with ⟨k, hk, rfl⟩
  rw [scoreEval_emissionKg, baseEval_emissionKg]
  show (0 : ℚ) ≤ _
  exact roundTo_nonneg 3 (mul_nonneg (emissionFactor_nonneg k) hd)

/-! ### Further helper lemmas -/

theorem greenScore_le_100_of_mem {d : ℚ} {p : String} {e : ModeEvaluation}
    (hd : 0 < d) (h : e ∈ computeModes d p) : e.greenScore ≤ 100 := by
  rcases greenScore_of_mem h with ⟨_, hg⟩ | ⟨hnz, hg⟩
  · rw [hg]
  · have hpos : 0 < e.emissionKg :=
      lt_of_le_of_ne (emission_nonneg_of_mem hd.le h) (Ne.symm hnz)
    have hM : 0 < maxEmission d p := maxEmission_pos_of_mem h hpos
    have hratio : 0 < e.emissionKg / maxEmission d p := div_pos hpos hM
    have hprod : 0 < e.emissionKg / maxEmission d p * 80 := by positivity
    have hscore : 100 - e.emissionKg / maxEmission d p * 80 < 100 := by linarith
    rw [hg]
    exact max_le (by norm_num) (roundTo_zero_decimals_le_100 hscore)

theorem maxEmission_attained_of_mem {d : ℚ} {p : String} {e : ModeEvaluation}
    (he : e ∈ computeModes d p) (hpos : 0 < e.emissionKg) :
    ∃ e2 ∈ computeModes d p, 0 < e2.emissionKg ∧ maxEmission d p = e2.emissionKg := by
  rcases mem_computeModes.mp he with ⟨k, hk, rfl⟩
  have hmem : baseEval d k ∈ modesList d p := List.mem_map_of_mem (baseEval d) hk
  rw [scoreEval_emissionKg] at hpos
  rcases maxEmissionOf_attained hmem hpos with ⟨m2, hm2, hm2pos, hM2⟩
  rcases List.mem_map.mp hm2 with ⟨k2, hk2, rfl⟩
  refine ⟨scoreEval (maxEmission d p) (baseEval d k2),
    mem_computeModes.mpr ⟨k2, hk2, rfl⟩, ?_, ?_⟩
  · rw [scoreEval_emissionKg]; exact hm2pos
  · rw [scoreEval_emissionKg]; exact hM2

theorem mem_computeModes_of_keep {d : ℚ} {p : String} {k : Key}
    (hk : keepMode d p k = true) : ∃ e ∈ computeModes d p, e.key = k := by
  have hall : k ∈ allKeysInOrder := by cases k <;> simp [allKeysInOrder]
  have hmem : k ∈ eligibleKeys d p := List.mem_filter.mpr ⟨hall, hk⟩
  exact ⟨scoreEval (maxEmission d p) (baseEval d k), mem_computeModes.mpr ⟨k, hmem, rfl⟩,
    (scoreEval_key _ _).trans (baseEval_key _ _)⟩

/-! ### Claim theorems -/

/-- C2: for every distance > 0 and any purpose, the evaluation list is
non-empty, and walk, cycle, motorbike, car, carpool and electric car all pass
the applicability filter. -/
theorem computeModes_nonempty_always_eligible (d : ℚ) (p : String) (hd : 0 < d) :
    computeModes d p ≠ [] ∧
    keepMode d p .walk = true ∧ keepMode d p .cycle = true ∧ keepMode d p .bike = true ∧
    keepMode d p .car = true ∧ keepMode d p .carpool = true ∧ keepMode d p .evCar = true := by
  refine ⟨?_, keepMode_walk d p, keepMode_cycle d p, keepMode_bike d p, keepMode_car d p,
    keepMode_carpool d p, keepMode_evCar d p⟩
  rw [computeModes_cons p hd.le]
  exact List.cons_ne_nil _ _

/-- C2 witness at distance 1, purpose "daily". -/
theorem computeModes_nonempty_always_eligible_witness :
    computeModes 1 "daily" ≠ [] ∧
    keepMode 1 "daily" .walk = true ∧ keepMode 1 "daily" .cycle = true ∧
    keepMode 1 "daily" .bike = true ∧ keepMode 1 "daily" .car = true ∧
    keepMode 1 "daily" .carpool = true ∧ keepMode 1 "daily" .evCar = true :=
  computeModes_nonempty_always_eligible 1 "daily" one_pos

/-- C3 counterexample: `evaluate(15, "daily")` does NOT exclude flight: the
only daily-commute rule fires when `distanceKm < 10`, and 15 ≥ 10, so the
flight mode is present in the result set, contrary to the claim. -/
theorem flight_included_at_15_daily :
    ∃ e ∈ computeModes 15 "daily", e.key = Key.flight :=
  mem_computeModes_of_keep
    ((keepMode_flight_iff 15 "daily").mpr ⟨by norm_num, Or.inl (by norm_num)⟩)

/-- C3 (amended): `evaluate(15, "long")` includes flight, and
`evaluate(15, "daily")` also includes flight (the daily exclusion applies
only below 10 km). -/
theorem flight_included_at_15_both :
    (∃ e ∈ computeModes 15 "long", e.key = Key.flight) ∧
    (∃ e ∈ computeModes 15 "daily", e.key = Key.flight) :=
  ⟨mem_computeModes_of_keep
      ((keepMode_flight_iff 15 "long").mpr ⟨by norm_num, Or.inl (by norm_num)⟩),
    mem_computeModes_of_keep
      ((keepMode_flight_iff 15 "daily").mpr ⟨by norm_num, Or.inl (by norm_num)⟩)⟩

/-- C5: the list returned by `computeModes` is sorted ascending by
`emissionKg` with ties broken by the original definition order of the mode
table (stable sort); consequently emissions are monotone along positions, so
the first element has the lowest emission and the last the highest. -/
theorem computeModes_sorted_stable (d : ℚ) (p : String) :
    (computeModes d p).Pairwise (fun a b => a.emissionKg < b.emissionKg ∨
      (a.emissionKg = b.emissionKg ∧ defIdx a.key < defIdx b.key)) ∧
    ∀ (i j : Fin (computeModes d p).length), i < j →
      ((computeModes d p).get i).emissionKg ≤ ((computeModes d p).get j).emissionKg := by
  have hidx : (scoredList d p).Pairwise (fun x y => defIdx x.key < defIdx y.key) := by
    unfold scoredList modesList eligibleKeys
    rw [List.map_map, List.pairwise_map]
    simp only [Function.comp, scoreEval_key, baseEval_key]
    apply List.Pairwise.sublist (List.filter_sublist _)
    decide
  refine ⟨stable_sortByEmission hidx, ?_⟩
  have hle : (computeModes d p).Pairwise (fun a b => a.emissionKg ≤ b.emissionKg) :=
    sorted_sortByEmission _
  intro i j hij
  exact List.pairwise_iff_get.mp hle i j hij

/-- C5 witness at distance 1, purpose "daily". -/
theorem computeModes_sorted_stable_witness :
    (computeModes 1 "daily").Pairwise (fun a b => a.emissionKg < b.emissionKg ∨
      (a.emissionKg = b.emissionKg ∧ defIdx a.key < defIdx b.key)) ∧
    ∀ (i j : Fin (computeModes 1 "daily").length), i < j →
      ((computeModes 1 "daily").get i).emissionKg ≤
        ((computeModes 1 "daily").get j).emissionKg :=
  computeModes_sorted_stable 1 "daily"

/-- C6: for modes present in both result sets, `emissionKg` at distance `2d`
differs from twice the value at distance `d` by at most `0.001` (exact
rational arithmetic, 3-decimal rounding). -/
theorem emissionKg_scales_linearly (d : ℚ) (p : String) (hd : 0 < d)
    (e1 e2 : ModeEvaluation) (h1 : e1 ∈ computeModes d p)
    (h2 : e2 ∈ computeModes (2 * d) p) (hkey : e2.key = e1.key) :
    |e2.emissionKg - 2 * e1.emissionKg| ≤ 1 / 1000 := by
  rw [emissionKg_of_mem h1, emissionKg_of_mem h2, hkey]
  have hmul : emissionFactor e1.key * (2 * d) = 2 * (emissionFactor e1.key * d) := by ring
  rw [hmul]
  exact roundTo_three_double _

/-- C6 witness: the walking evaluation of `evaluate(1, "daily")` and
`evaluate(2·1, "daily")`. -/
theorem emissionKg_scales_linearly_witness :
    |(ModeEvaluation.mk .walk "Walking" "🚶"
        "Best for short distances. Zero emissions and great for health." 0 100).emissionKg -
      2 * (ModeEvaluation.mk .walk "Walking" "🚶"
        "Best for short distances. Zero emissions and great for health." 0 100).emissionKg| ≤
      1 / 1000 := by
  have h1 : (ModeEvaluation.mk .walk "Walking" "🚶"
      "Best for short distances. Zero emissions and great for health." 0 100) ∈
      computeModes 1 "daily" := by
    rw [computeModes_cons "daily" (by norm_num : (0:ℚ) ≤ 1)]
    exact List.mem_cons_self _ _
  have h2 : (ModeEvaluation.mk .walk "Walking" "🚶"
      "Best for short distances. Zero emissions and great for health." 0 100) ∈
      computeModes (2 * 1) "daily" := by
    rw [computeModes_cons "daily" (by norm_num : (0:ℚ) ≤ 2 * 1)]
    exact List.mem_cons_self _ _
  exact emissionKg_scales_linearly 1 "daily" one_pos _ _ h1 h2 rfl

/-- C8: the applicability filter is monotone in distance for a fixed purpose:
a key eligible at distance `d` stays eligible at any larger distance. -/
theorem eligibleKeys_monotone (d d2 : ℚ) (p : String) (k : Key)
    (hd : 0 < d) (hlt : d < d2) (hk : k ∈ eligibleKeys d p) : k ∈ eligibleKeys d2 p := by
  rcases List.mem_filter.mp hk with ⟨hall, hkeep⟩
  refine List.mem_filter.mpr ⟨hall, ?_⟩
  cases k with
  | walk => exact keepMode_walk d2 p
  | cycle => exact keepMode_cycle d2 p
  | bike => exact keepMode_bike d2 p
  | car => exact keepMode_car d2 p
  | carpool => exact keepMode_carpool d2 p
  | evCar => exact keepMode_evCar d2 p
  | bus =>
    rw [keepMode_bus_iff] at hkeep ⊢
    linarith
  | metro =>
    rw [keepMode_metro_iff] at hkeep ⊢
    linarith
  | flight =>
    rw [keepMode_flight_iff] at hkeep ⊢
    rcases hkeep with ⟨h5, h10p⟩
    refine ⟨by linarith, ?_⟩
    rcases h10p with h10 | hp
    · exact Or.inl (by linarith)
    · exact Or.inr hp

/-- C8 witness: walking at distances 1 and 2 with purpose "daily". -/
theorem eligibleKeys_monotone_witness : Key.walk ∈ eligibleKeys 2 "daily" :=
  eligibleKeys_monotone 1 2 "daily" Key.walk one_pos one_lt_two
    (List.mem_filter.mpr ⟨by decide, keepMode_walk 1 "daily"⟩)

/-- C1 counterexample: at the positive distance `1/1000` with valid purpose
"daily", the rounded emission of every eligible mode is `0`, so the result set is
non-empty and every mode — in particular the highest-emitting one — receives
greenScore 100, not 20. -/
theorem highest_emitter_scores_100_at_tiny_distance :
    (0 : ℚ) < 1 / 1000 ∧
    (computeModes (1 / 1000) "daily").map (fun e => (e.emissionKg, e.greenScore)) =
      [((0 : ℚ), (100 : ℚ)), (0, 100), (0, 100), (0, 100), (0, 100), (0, 100)] := by
  constructor
  · norm_num
  · norm_num [computeModes, scoredList, modesList, maxEmission, eligibleKeys, allKeysInOrder,
      keepMode, baseEval, maxEmissionOf, scoreEval, sortByEmission, insertByEmission, roundTo,
      emissionFactor, List.filter]

/-- C1 (amended): in every result set for a positive distance, greenScore is
an integer in [20,100]; every mode with `emissionKg = 0` receives exactly 100;
and whenever a mode has positive rounded emission, every mode attaining the
maximal `emissionKg` receives exactly 20 (when all rounded emissions are 0,
every mode scores 100 instead). -/
theorem greenScore_bounds (d : ℚ) (p : String) (hd : 0 < d) :
    (∀ e ∈ computeModes d p, ∃ n : ℕ, 20 ≤ n ∧ n ≤ 100 ∧ e.greenScore = (n : ℚ)) ∧
    (∀ e ∈ computeModes d p, e.emissionKg = 0 → e.greenScore = 100) ∧
    (∀ e ∈ computeModes d p, 0 < e.emissionKg →
      (∀ a ∈ computeModes d p, a.emissionKg ≤ e.emissionKg) → e.greenScore = 20) := by
  refine ⟨?_, ?_, ?_⟩
  · intro e he
    rcases greenScore_of_mem he with ⟨_, hg⟩ | ⟨hnz, hg⟩
    · exact ⟨100, by norm_num, le_rfl, by rw [hg]; norm_num⟩
    · have hpos : 0 < e.emissionKg :=
        lt_of_le_of_ne (emission_nonneg_of_mem hd.le he) (Ne.symm hnz)
      have hM : 0 < maxEmission d p := maxEmission_pos_of_mem he hpos
      have hprod : 0 < e.emissionKg / maxEmission d p * 80 := by positivity
      have hs : 100 - e.emissionKg / maxEmission d p * 80 < 100 := by linarith
      have hfl : ⌊(100 - e.emissionKg / maxEmission d p * 80) + 1 / 2⌋ ≤ 100 := by
        have h101 : ⌊(100 - e.emissionKg / maxEmission d p * 80) + 1 / 2⌋ < 101 := by
          apply Int.floor_lt.mpr
          push_cast
          linarith
        omega
      have h20 : (20 : ℤ) ≤ max 20 ⌊(100 - e.emissionKg / maxEmission d p * 80) + 1 / 2⌋ :=
        le_max_left _ _
      have h100 : max (20 : ℤ) ⌊(100 - e.emissionKg / maxEmission d p * 80) + 1 / 2⌋ ≤ 100 :=
        max_le (by norm_num) hfl
      refine ⟨(max (20 : ℤ) ⌊(100 - e.emissionKg / maxEmission d p * 80) + 1 / 2⌋).toNat,
        by omega, by omega, ?_⟩
      rw [hg, roundTo_zero_decimals]
      have hcast : (((max (20 : ℤ) ⌊(100 - e.emissionKg / maxEmission d p * 80) + 1 / 2⌋).toNat :
          ℕ) : ℚ) = ((max (20 : ℤ) ⌊(100 - e.emissionKg / maxEmission d p * 80) + 1 / 2⌋ :
          ℤ) : ℚ) := by
        exact_mod_cast congrArg (fun z : ℤ => (z : ℚ))
          (Int.toNat_of_nonneg (by omega :
            (0 : ℤ) ≤ max 20 ⌊(100 - e.emissionKg / maxEmission d p * 80) + 1 / 2⌋))
      rw [hcast, Int.cast_max]
      norm_num
  · intro e he hz
    rcases greenScore_of_mem he with ⟨_, hg⟩ | ⟨hnz, _⟩
    · exact hg
    · exact absurd hz hnz
  · intro e he hpos hmax
    have hM1 : e.emissionKg ≤ maxEmission d p := emission_le_maxEmission_of_mem he hpos
    rcases maxEmission_attained_of_mem he hpos with ⟨e2, he2, he2pos, hM2⟩
    have hM3 : maxEmission d p ≤ e.emissionKg := by
      rw [hM2]
      exact hmax e2 he2
    have heq : e.emissionKg = maxEmission d p := le_antisymm hM1 hM3
    rcases greenScore_of_mem he with ⟨hz, _⟩ | ⟨_, hg⟩
    · rw [hz] at hpos
      exact absurd hpos (lt_irrefl 0)
    · rw [hg, heq, div_self (ne_of_gt (maxEmission_pos_of_mem he hpos))]
      have h20 : (100 : ℚ) - 1 * 80 = 20 := by norm_num
      rw [h20, roundTo_twenty, max_self]

/-- C1 witness at distance 1, purpose "daily". -/
theorem greenScore_bounds_witness :
    (∀ e ∈ computeModes 1 "daily", ∃ n : ℕ, 20 ≤ n ∧ n ≤ 100 ∧ e.greenScore = (n : ℚ)) ∧
    (∀ e ∈ computeModes 1 "daily", e.emissionKg = 0 → e.greenScore = 100) ∧
    (∀ e ∈ computeModes 1 "daily", 0 < e.emissionKg →
      (∀ a ∈ computeModes 1 "daily", a.emissionKg ≤ e.emissionKg) → e.greenScore = 20) :=
  greenScore_bounds 1 "daily" one_pos

/-- C4 counterexample: at the positive distance 15 with the valid purpose
"long" (and likewise "daily"), NO mode is excluded: the eligible set equals
the full mode table, so it is not a strict subset. -/
theorem no_mode_excluded_at_15 :
    (0 : ℚ) < 15 ∧ eligibleKeys 15 "long" = allKeysInOrder := by
  constructor
  · norm_num
  · norm_num [eligibleKeys, allKeysInOrder, keepMode, List.filter]

/-- C4 (amended): the eligible set is always a sublist of the full mode
table, and it is a proper subset exactly when `d < 5` or
(`d < 10` and the purpose is "daily"); for all other queries every mode is
eligible. -/
theorem eligibleKeys_sublist_strict_iff (d : ℚ) (p : String) (hd : 0 < d) :
    (eligibleKeys d p).Sublist allKeysInOrder ∧
    (eligibleKeys d p ≠ allKeysInOrder ↔ (d < 5 ∨ (d < 10 ∧ p = "daily"))) := by
  refine ⟨List.filter_sublist _, ?_, ?_⟩
  · intro hne
    by_contra hcon
    push_neg at hcon
    rcases hcon with ⟨h5, h10p⟩
    apply hne
    apply List.filter_eq_self.mpr
    intro k hk
    cases k with
    | walk => exact keepMode_walk d p
    | cycle => exact keepMode_cycle d p
    | bike => exact keepMode_bike d p
    | car => exact keepMode_car d p
    | carpool => exact keepMode_carpool d p
    | evCar => exact keepMode_evCar d p
    | bus => exact (keepMode_bus_iff d p).mpr (by linarith)
    | metro => exact (keepMode_metro_iff d p).mpr (by linarith)
    | flight =>
      refine (keepMode_flight_iff d p).mpr ⟨h5, ?_⟩
      by_cases h10 : 10 ≤ d
      · exact Or.inl h10
      · exact Or.inr (h10p (not_le.mp h10))
  · intro h heq
    have hflight : Key.flight ∈ eligibleKeys d p := by
      rw [heq]
      decide
    have hkeep := (List.mem_filter.mp hflight).2
    rw [keepMode_flight_iff] at hkeep
    rcases hkeep with ⟨h5, h10p⟩
    rcases h with hlt5 | ⟨hlt10, hp⟩
    · linarith
    · rcases h10p with h10 | hpne
      · linarith
      · exact hpne hp

/-- C4 witness at distance 1, purpose "daily". -/
theorem eligibleKeys_sublist_strict_iff_witness :
    (eligibleKeys 1 "daily").Sublist allKeysInOrder ∧
    (eligibleKeys 1 "daily" ≠ allKeysInOrder ↔
      ((1 : ℚ) < 5 ∨ ((1 : ℚ) < 10 ∧ "daily" = "daily"))) :=
  eligibleKeys_sublist_strict_iff 1 "daily" one_pos

/-- C7: within the result set of one query, greenScore is monotonically
non-increasing in emissionKg. -/
theorem greenScore_antitone (d : ℚ) (p : String) (hd : 0 < d) :
    ∀ a ∈ computeModes d p, ∀ b ∈ computeModes d p,
      a.emissionKg ≤ b.emissionKg → b.greenScore ≤ a.greenScore := by
  intro a ha b hb hab
  rcases greenScore_of_mem ha with ⟨_, hag⟩ | ⟨hanz, hag⟩
  · rw [hag]
    exact greenScore_le_100_of_mem hd hb
  · have hapos : 0 < a.emissionKg :=
      lt_of_le_of_ne (emission_nonneg_of_mem hd.le ha) (Ne.symm hanz)
    have hbpos : 0 < b.emissionKg := hapos.trans_le hab
    rcases greenScore_of_mem hb with ⟨hbz, _⟩ | ⟨_, hbg⟩
    · rw [hbz] at hbpos
      exact absurd hbpos (lt_irrefl 0)
    · rw [hag, hbg]
      have hM : 0 < maxEmission d p := maxEmission_pos_of_mem ha hapos
      apply max_le_max le_rfl
      apply roundTo_mono
      have hdiv : a.emissionKg / maxEmission d p ≤ b.emissionKg / maxEmission d p :=
        div_le_div_of_nonneg_right hab hM.le
      nlinarith

/-- C7 witness: the walking evaluation compared with itself at distance 1,
purpose "daily". -/
theorem greenScore_antitone_witness :
    (ModeEvaluation.mk .walk "Walking" "🚶"
        "Best for short distances. Zero emissions and great for health." 0 100).greenScore ≤
      (ModeEvaluation.mk .walk "Walking" "🚶"
        "Best for short distances. Zero emissions and great for health." 0 100).greenScore := by
  have h1 : (ModeEvaluation.mk .walk "Walking" "🚶"
      "Best for short distances. Zero emissions and great for health." 0 100) ∈
      computeModes 1 "daily" := by
    rw [computeModes_cons "daily" (by norm_num : (0 : ℚ) ≤ 1)]
    exact List.mem_cons_self _ _
  exact greenScore_antitone 1 "daily" one_pos _ h1 _ h1 le_rfl

/-- C9: `saveRecentTrip` prepends the new record, truncates the stored list to
at most 6 entries (newest first), stores the truncated list and returns it;
saving 7 trips starting from an empty history keeps exactly the 6 most recent,
oldest dropped. -/
theorem saveRecentTrip_behaviour :
    (∀ (s : Option (List RecentTripRecord)) (t : RecentTripRecord),
      (saveRecentTrip s t).1.head? = some t ∧
      (saveRecentTrip s t).1.tail = (loadRecentTrips s).take 5 ∧
      (saveRecentTrip s t).1.length ≤ 6 ∧
      (saveRecentTrip s t).2 = some (saveRecentTrip s t).1) ∧
    (∀ t1 t2 t3 t4 t5 t6 t7 : RecentTripRecord,
      (saveRecentTrip (saveRecentTrip (saveRecentTrip (saveRecentTrip (saveRecentTrip
        (saveRecentTrip (saveRecentTrip none t1).2 t2).2 t3).2 t4).2 t5).2 t6).2 t7).1 =
        [t7, t6, t5, t4, t3, t2]) := by
  constructor
  · intro s t
    refine ⟨rfl, rfl, ?_, rfl⟩
    show ((t :: loadRecentTrips s).take 6).length ≤ 6
    rw [List.length_take]
    exact min_le_left _ _
  · intro t1 t2 t3 t4 t5 t6 t7
    rfl

/-- C10: for every positive distance and any purpose, the first element of
`computeModes` is the walking evaluation (emissionKg 0, greenScore 100), so
the `bestLabel` stored in the RecentTripRecord of every successful query is
"Walking" and its `bestEmission` is 0. -/
theorem walking_always_first (d : ℚ) (p fromP toP : String) (hd : 0 < d) :
    (computeModes d p).head? =
      some (ModeEvaluation.mk .walk "Walking" "🚶"
        "Best for short distances. Zero emissions and great for health." 0 100) ∧
    mkTripRecord fromP toP d p =
      some (RecentTripRecord.mk fromP toP d "Walking" 0 (classifyTrip d)
        (purposeLabelOf p)) := by
  have hcons := computeModes_cons p hd.le
  constructor
  · rw [hcons]
    rfl
  · unfold mkTripRecord
    rw [hcons]

/-- C10 witness at distance 1, purpose "daily", endpoints "Home" → "Work". -/
theorem walking_always_first_witness :
    (computeModes 1 "daily").head? =
      some (ModeEvaluation.mk .walk "Walking" "🚶"
        "Best for short distances. Zero emissions and great for health." 0 100) ∧
    mkTripRecord "Home" "Work" 1 "daily" =
      some (RecentTripRecord.mk "Home" "Work" 1 "Walking" 0 (classifyTrip 1)
        (purposeLabelOf "daily")) :=
  walking_always_first 1 "daily" "Home" "Work" one_pos

end GreenTravel
